import Mathlib

/-!
Verification of the chunked-array iteration helpers in
`fpd_data_processing/lazy_tools.py` and of the per-pixel PDF transform
functions in `pyxem/utils/pdf_utils.py`, via a shallow embedding.

Machine floats are modelled by real numbers; arrays by lists or by
index functions; Python exceptions by `Except`/`Option` results.
-/

namespace LazyTools

/-- One component of a NumPy basic-slicing tuple as produced by
`np.s_[...]` in `_get_dask_chunk_slice_list`: either a half-open index
range `a:b` along a navigation axis, or the full-range selector `:`
used on the two trailing signal axes. -/
inductive SliceItem where
  | interval (a b : Nat) : SliceItem
  | full : SliceItem
deriving DecidableEq, Repr

/-- The inner loop of `_get_dask_chunk_slice_list` on one navigation
dimension: walk the per-chunk size list, keeping the running offset
`current_v`, and emit `(current_v, current_v + chunk)` boundary pairs. -/
def boundaryPairsAux (current : Nat) : List Nat → List (Nat × Nat)
  | [] => []
  | chunk :: rest => (current, current + chunk) :: boundaryPairsAux (current + chunk) rest

/-- Boundary pairs of one navigation dimension, starting from offset 0
(`current_v = 0` in the source). -/
def boundaryPairs (chunkList : List Nat) : List (Nat × Nat) :=
  boundaryPairsAux 0 chunkList

/-- Embedding of `_get_dask_chunk_slice_list(dask_array)`.
`shape` is `dask_array.shape` and `chunks` the per-dimension chunk-size
lists `dask_array.chunks`.  Raises `NotImplementedError` for rank 2 or
rank above 4; otherwise builds the boundary pairs of every navigation
dimension (`dask_array.chunks[:-2]`) and assembles the slice windows for
one (`len == 1`) or two (`len == 2`) navigation dimensions. -/
def getDaskChunkSliceList (shape : List Nat) (chunks : List (List Nat)) :
    Except String (List (List SliceItem)) :=
  if shape.length = 2 ∨ 4 < shape.length then
    Except.error "dask_array must have either 3 or 4 dimensions"
  else
    let tempSliceList := (chunks.take (chunks.length - 2)).map boundaryPairs
    if tempSliceList.length = 1 then
      Except.ok ((tempSliceList.getD 0 []).map
        (fun p => [SliceItem.interval p.1 p.2, SliceItem.full, SliceItem.full]))
    else if tempSliceList.length = 2 then
      Except.ok ((tempSliceList.getD 0 []).flatMap
        (fun p0 => (tempSliceList.getD 1 []).map
          (fun p1 => [SliceItem.interval p0.1 p0.2,
                      SliceItem.interval p1.1 p1.2,
                      SliceItem.full, SliceItem.full])))
    else
      Except.ok []

/-- Partial sum `(cs.take i).sum`: the global offset at which chunk `i` of a
navigation dimension with chunk sizes `cs` starts. -/
def offsetAt (cs : List Nat) (i : Nat) : Nat :=
  (cs.take i).sum

/-- The dense output array of `_calculate_function_on_dask_array`
(scalar case), indexed by a navigation coordinate list. -/
def Output : Type := List Nat → ℝ

/-- A single element assignment `return_data[coord] = v`. -/
def writeAt (out : Output) (coord : List Nat) (v : ℝ) : Output :=
  fun c => if c = coord then v else out c

/-- The zero-initialized output array `np.zeros(...)`. -/
def zeroOutput : Output := fun _ => 0

/-- The value the driver stores for the frame at navigation coordinate
`c`: the per-frame function applied to the materialized 2-D signal
slice at `c`. -/
def frameVal (f : (Nat → Nat → ℝ) → ℝ) (data : List Nat → ℝ) (c : List Nat) : ℝ :=
  f (fun p q => data (c ++ [p, q]))

/-- The per-window body of `_calculate_function_on_dask_array` for a
two-navigation-dimension window `a0:b0, a1:b1, :, :`: iterate the local
offsets `(u, v)` of the materialized chunk in row-major order, apply the
per-frame function to the frame `data[a0+u, a1+v, :, :]` and store the
result at the global coordinate `(a0+u, a1+v)`. -/
def applyWrites2 (f : (Nat → Nat → ℝ) → ℝ) (data : List Nat → ℝ)
    (a0 b0 a1 b1 : Nat) (out : Output) : Output :=
  (List.range (b0 - a0)).foldl
    (fun acc0 u =>
      (List.range (b1 - a1)).foldl
        (fun acc1 v =>
          writeAt acc1 [a0 + u, a1 + v]
            (f (fun p q => data [a0 + u, a1 + v, p, q])))
        acc0)
    out

/-- One iteration of the driver's window loop.  For a one-navigation-
dimension window the source evaluates `slice_chunk.start` on a slicing
tuple, which raises `AttributeError` at the first frame of the chunk
(and does nothing when the chunk is empty); for a two-navigation-
dimension window it performs the row-major frame writes. -/
def applyChunkSlice (f : (Nat → Nat → ℝ) → ℝ) (data : List Nat → ℝ)
    (out : Output) (w : List SliceItem) : Except String Output :=
  match w with
  | [SliceItem.interval a0 b0, SliceItem.full, SliceItem.full] =>
      if b0 - a0 = 0 then Except.ok out
      else Except.error "AttributeError: tuple object has no attribute start"
  | [SliceItem.interval a0 b0, SliceItem.interval a1 b1, SliceItem.full, SliceItem.full] =>
      Except.ok (applyWrites2 f data a0 b0 a1 b1 out)
  | _ => Except.ok out

/-- Embedding of `_calculate_function_on_dask_array(dask_array, function)`
with `return_sig_size = 1` (scalar per-frame results): validate the
rank, allocate the zero output, obtain the slice windows, and process
them in list order. -/
def calcOnDaskArray (f : (Nat → Nat → ℝ) → ℝ) (shape : List Nat)
    (chunks : List (List Nat)) (data : List Nat → ℝ) : Except String Output :=
  if shape.length = 2 ∨ 4 < shape.length then
    Except.error "dask_array must have either 3 or 4 dimensions"
  else
    match getDaskChunkSliceList shape chunks with
    | Except.error e => Except.error e
    | Except.ok sliceList =>
        sliceList.foldlM (fun out w => applyChunkSlice f data out w) zeroOutput

/-- The reference computation of claim C1: loop directly over all
navigation coordinates `(i, j)` with `i < s0`, `j < s1` in row-major
order, materialize each frame, apply the function, and store the result
at that coordinate in a zero-initialized array. -/
def directLoop (s0 s1 : Nat) (f : (Nat → Nat → ℝ) → ℝ) (data : List Nat → ℝ) : Output :=
  (List.range s0).foldl
    (fun acc0 i =>
      (List.range s1).foldl
        (fun acc1 j =>
          writeAt acc1 [i, j] (f (fun p q => data [i, j, p, q])))
        acc0)
    zeroOutput

/-- The global coordinates written while processing the window
`a0:b0, a1:b1, :, :`, in the row-major local order of the source. -/
def chunkKeys (a0 b0 a1 b1 : Nat) : List (List Nat) :=
  (List.range (b0 - a0)).flatMap
    (fun u => (List.range (b1 - a1)).map (fun v => [a0 + u, a1 + v]))

/-- The coordinates written by `directLoop s0 s1`, in row-major order. -/
def directKeys (s0 s1 : Nat) : List (List Nat) :=
  (List.range s0).flatMap (fun i => (List.range s1).map (fun j => [i, j]))

end LazyTools

namespace PdfUtils

/-- NumPy `np.max` of a 1-D array: `none` models the `ValueError` NumPy raises
on an empty array, otherwise the maximum of the elements. -/
noncomputable def npMax (l : List ℝ) : Option ℝ :=
  match l with
  | [] => none
  | x :: xs => some (xs.foldl max x)

/-- Embedding of `normalise_pdf_signal_to_max(z, index_min)`:
`np.divide(z, np.max(z[index_min:]))`. -/
noncomputable def normalise_pdf_signal_to_max (z : List ℝ) (index_min : Nat) : Option (List ℝ) :=
  match npMax (z.drop index_min) with
  | none => none
  | some max_val => some (z.map (fun a => a / max_val))

/-- Models `np.nan_to_num(a / b)` as it occurs in the damping functions,
where the numerator `a` vanishes whenever the denominator `b` does
(`sin(0) = 0`): `0/0` is NaN and `nan_to_num` maps it to `0`; for
`b ≠ 0` the finite quotient is kept unchanged. -/
noncomputable def nanToNumDiv (a b : ℝ) : ℝ :=
  if b = 0 then 0 else a / b

/-- The generated scattering axis `s_scale * np.arange(s_size)` used by
the damping functions. -/
noncomputable def dampAxis (s_scale : ℝ) (s_size : Nat) : List ℝ :=
  (List.range s_size).map (fun (j : Nat) => s_scale * (j : ℝ))

/-- The Lorch damping vector
`np.nan_to_num(np.sin(delta*s) / (delta*s))` with `delta = pi/s_max`,
over the generated scattering axis. -/
noncomputable def lorchDampingTerm (s_max s_scale : ℝ) (s_size : Nat) : List ℝ :=
  (dampAxis s_scale s_size).map
    (fun s => nanToNumDiv (Real.sin (Real.pi / s_max * s)) (Real.pi / s_max * s))

/-- Embedding of `damp_ri_lorch(z, s_max, s_scale, s_size)`:
`z * damping_term` elementwise. -/
noncomputable def damp_ri_lorch (z : List ℝ) (s_max s_scale : ℝ) (s_size : Nat) : List ℝ :=
  List.zipWith (fun a b => a * b) z (lorchDampingTerm s_max s_scale s_size)

/-- Embedding of `damp_ri_low_q_region_erfc(z, scale, offset, s_scale,
s_size)` as the module actually executes.  `pdf_utils.py` imports only
numpy, so after building the scattering axis the expression
`special.erf(scattering_axis * scale - offset)` evaluates the unbound
name `special` and raises `NameError` on every call; the damped product
`z * damping_term` is never computed. -/
noncomputable def damp_ri_low_q_region_erfc (z : List ℝ)
    (scale offset s_scale : ℝ) (s_size : Nat) : Except String (List ℝ) :=
  Except.error "NameError: name special is not defined"

/-- The Lobato & Van Dyck (2014) base curve of one element: the inner
parameter loop of `scattering_to_signal_lobato`, accumulating
`a * (2 + b*(2x)^2) * (1 / (1 + b*(2x)^2)^2)` over the tabulated
`(a, b)` pairs. -/
noncomputable def lobatoF (element : List (ℝ × ℝ)) (x : ℝ) : ℝ :=
  element.foldl
    (fun fi p => fi + p.1 * (2 + p.2 * (2 * x) ^ 2) * (1 / (1 + p.2 * (2 * x) ^ 2) ^ 2))
    0

/-- The International Tables base curve of one element: the inner
parameter loop of `scattering_to_signal_xtables`, accumulating
`a * exp(-b * x^2)` over the tabulated `(a, b)` pairs. -/
noncomputable def xtablesF (element : List (ℝ × ℝ)) (x : ℝ) : ℝ :=
  element.foldl (fun fi p => fi + p.1 * Real.exp (-p.2 * x ^ 2)) 0

/-- The axis `x = np.arange(s_size) * s_scale` of the scattering-curve
synthesizers. -/
noncomputable def scatterAxis (s_size : Nat) (s_scale : ℝ) : List ℝ :=
  (List.range s_size).map (fun (j : Nat) => (j : ℝ) * s_scale)

/-- The element loop shared by both synthesizers: starting from zero
vectors, accumulate `sum_squares += F(element)^2 * frac` and
`square_sum += F(element) * frac` over the per-element parameter lists
paired with their fractions.  In the module as shipped this loop is
only ever reached with an empty parameter list, since building a
non-empty one raises `NameError` first. -/
noncomputable def elementAccum (F : List (ℝ × ℝ) → ℝ → ℝ)
    (params : List (List (ℝ × ℝ))) (fracs : List ℝ)
    (x : List ℝ) (s_size : Nat) : List ℝ × List ℝ :=
  (params.zip fracs).foldl
    (fun acc pf =>
      (List.zipWith (fun a xv => a + F pf.1 xv ^ 2 * pf.2) acc.1 x,
       List.zipWith (fun a xv => a + F pf.1 xv * pf.2) acc.2 x))
    (List.replicate s_size 0, List.replicate s_size 0)

/-- Embedding of `scattering_to_signal_lobato(elements, fracs, N, C,
s_size, s_scale)` as the module actually executes.  Its first loop,
`params.append(ATOMIC_SCATTERING_PARAMS_LOBATO[e])`, evaluates a name
the module never binds (only numpy is imported), so any non-empty
element list raises `NameError` at the first iteration.  With an empty
element list the loop body never runs, `params` stays empty, and the
remainder of the body returns the pair (`signal`, `square_sum`) built
from the empty accumulation: `N[i,j] * 0 + C[i,j]` and `N[i,j] * 0`
broadcast over the axis. -/
noncomputable def scattering_to_signal_lobato (elements : List String) (fracs : List ℝ)
    (N C : Nat → Nat → ℝ) (s_size : Nat) (s_scale : ℝ) :
    Except String ((Nat → Nat → List ℝ) × (Nat → Nat → List ℝ)) :=
  match elements with
  | _ :: _ => Except.error "NameError: name ATOMIC_SCATTERING_PARAMS_LOBATO is not defined"
  | [] =>
      let x := scatterAxis s_size s_scale
      let acc := elementAccum lobatoF [] fracs x s_size
      Except.ok
        (fun i j => acc.1.map (fun v => N i j * v + C i j),
         fun i j => acc.2.map (fun v => N i j * v))

/-- Embedding of `scattering_to_signal_xtables(elements, fracs, N, C,
s_size, s_scale)` as the module actually executes: identical structure
to the Lobato variant, and its first loop evaluates the unbound name
`ATOMIC_SCATTERING_PARAMS`, so any non-empty element list raises
`NameError` at the first iteration. -/
noncomputable def scattering_to_signal_xtables (elements : List String) (fracs : List ℝ)
    (N C : Nat → Nat → ℝ) (s_size : Nat) (s_scale : ℝ) :
    Except String ((Nat → Nat → List ℝ) × (Nat → Nat → List ℝ)) :=
  match elements with
  | _ :: _ => Except.error "NameError: name ATOMIC_SCATTERING_PARAMS is not defined"
  | [] =>
      let x := scatterAxis s_size s_scale
      let acc := elementAccum xtablesF [] fracs x s_size
      Except.ok
        (fun i j => acc.1.map (fun v => N i j * v + C i j),
         fun i j => acc.2.map (fun v => N i j * v))

end PdfUtils

namespace LazyTools

theorem offsetAt_zero (cs : List Nat) : offsetAt cs 0 = 0 := rfl

theorem offsetAt_cons_succ (c : Nat) (rest : List Nat) (i : Nat) :
    offsetAt (c :: rest) (i + 1) = c + offsetAt rest i := by
  simp [offsetAt, List.take_succ_cons]

theorem offsetAt_length (cs : List Nat) : offsetAt cs cs.length = cs.sum := by
  simp [offsetAt]

theorem offsetAt_lt_succ (cs : List Nat) (hpos : ∀ c ∈ cs, 0 < c)
    (i : Nat) (hi : i < cs.length) : offsetAt cs i < offsetAt cs (i + 1) := by
  have h := List.sum_take_succ cs i hi
  have hmem : cs[i] ∈ cs := List.getElem_mem hi
  have := hpos _ hmem
  simp only [offsetAt]
  omega

theorem boundaryPairsAux_eq (cs : List Nat) : ∀ v : Nat,
    boundaryPairsAux v cs =
      (List.range cs.length).map (fun i => (v + offsetAt cs i, v + offsetAt cs (i + 1))) := by
  induction cs with
  | nil => intro v; simp [boundaryPairsAux]
  | cons c rest ih =>
      intro v
      rw [boundaryPairsAux, ih (v + c), List.length_cons, List.range_succ_eq_map,
        List.map_cons, List.map_map]
      congr 1
      simp only [List.map_inj_left, Function.comp_apply, Nat.succ_eq_add_one,
        offsetAt_cons_succ, Prod.ext_iff, List.mem_range]
      intro i _
      omega

theorem boundaryPairs_eq (cs : List Nat) :
    boundaryPairs cs =
      (List.range cs.length).map (fun i => (offsetAt cs i, offsetAt cs (i + 1))) := by
  rw [boundaryPairs, boundaryPairsAux_eq]
  simp

/-- Claim C2: for a chunked array with one navigation dimension whose
chunk-size list is `cs = [c0, ..., ck]` (all positive), the mapper
returns exactly `k+1` = `cs.length` slice windows, listed in order: the
`i`-th window carries the half-open navigation range from `offsetAt cs i`
to `offsetAt cs (i+1)` together with full-range signal selectors.  The
ranges are contiguous by construction (the end of range `i` is the
start of range `i+1`), start at 0, end at `cs.sum`, and are non-empty
and increasing, hence non-overlapping and covering `[0, cs.sum)`. -/
theorem chunk_slice_list_one_nav_dim (shape : List Nat) (cs cx cy : List Nat)
    (hs : shape.length = 3) (hpos : ∀ c ∈ cs, 0 < c) :
    getDaskChunkSliceList shape [cs, cx, cy] =
      Except.ok ((List.range cs.length).map
        (fun i => [SliceItem.interval (offsetAt cs i) (offsetAt cs (i + 1)),
                   SliceItem.full, SliceItem.full]))
    ∧ offsetAt cs 0 = 0
    ∧ offsetAt cs cs.length = cs.sum
    ∧ ∀ i < cs.length, offsetAt cs i < offsetAt cs (i + 1) := by
  refine ⟨?_, offsetAt_zero cs, offsetAt_length cs, fun i hi => offsetAt_lt_succ cs hpos i hi⟩
  rw [getDaskChunkSliceList, if_neg (by omega)]
  exact congrArg Except.ok (by
    show (boundaryPairs cs).map
        (fun p => [SliceItem.interval p.1 p.2, SliceItem.full, SliceItem.full]) = _
    rw [boundaryPairs_eq, List.map_map]
    rfl)

theorem chunk_slice_list_one_nav_dim_witness :
    (([5, 4, 4] : List Nat).length = 3 ∧ ∀ c ∈ ([2, 3] : List Nat), 0 < c)
    ∧ (getDaskChunkSliceList [5, 4, 4] [[2, 3], [4], [4]] =
        Except.ok ((List.range ([2, 3] : List Nat).length).map
          (fun i => [SliceItem.interval (offsetAt [2, 3] i) (offsetAt [2, 3] (i + 1)),
                     SliceItem.full, SliceItem.full]))
      ∧ offsetAt [2, 3] 0 = 0
      ∧ offsetAt [2, 3] ([2, 3] : List Nat).length = ([2, 3] : List Nat).sum
      ∧ ∀ i < ([2, 3] : List Nat).length, offsetAt [2, 3] i < offsetAt [2, 3] (i + 1)) :=
  ⟨⟨by decide, by decide⟩,
   chunk_slice_list_one_nav_dim [5, 4, 4] [2, 3] [4] [4] (by decide) (by decide)⟩

/-- Claim C3: for a chunked array with two navigation dimensions whose
chunk-size lists are `cs0` (length `m`) and `cs1` (length `n`), the
mapper returns exactly `m * n` windows in row-major order — all
inner-axis windows of a given outer window consecutively, outer windows
in order — each window combining the outer boundary range, the inner
boundary range and full-range selectors on the two signal axes. -/
theorem chunk_slice_list_two_nav_dims (shape : List Nat) (cs0 cs1 cx cy : List Nat)
    (hs : shape.length = 4) :
    getDaskChunkSliceList shape [cs0, cs1, cx, cy] =
      Except.ok ((List.range cs0.length).flatMap
        (fun i => (List.range cs1.length).map
          (fun j => [SliceItem.interval (offsetAt cs0 i) (offsetAt cs0 (i + 1)),
                     SliceItem.interval (offsetAt cs1 j) (offsetAt cs1 (j + 1)),
                     SliceItem.full, SliceItem.full])))
    ∧ ((List.range cs0.length).flatMap
        (fun i => (List.range cs1.length).map
          (fun j => [SliceItem.interval (offsetAt cs0 i) (offsetAt cs0 (i + 1)),
                     SliceItem.interval (offsetAt cs1 j) (offsetAt cs1 (j + 1)),
                     SliceItem.full, SliceItem.full]))).length
        = cs0.length * cs1.length := by
  constructor
  case _ =>
    rw [getDaskChunkSliceList, if_neg (by omega)]
    exact congrArg Except.ok (by
      show (boundaryPairs cs0).flatMap
          (fun p0 => (boundaryPairs cs1).map
            (fun p1 => [SliceItem.interval p0.1 p0.2, SliceItem.interval p1.1 p1.2,
                        SliceItem.full, SliceItem.full])) = _
      rw [boundaryPairs_eq cs0, boundaryPairs_eq cs1, List.flatMap_map]
      simp only [List.map_map]
      rfl)
  case _ =>
    rw [List.length_flatMap]
    simp [Function.comp_def]

theorem chunk_slice_list_two_nav_dims_witness :
    ([6, 5, 4, 4] : List Nat).length = 4
    ∧ (getDaskChunkSliceList [6, 5, 4, 4] [[2, 4], [3, 2], [4], [4]] =
        Except.ok ((List.range ([2, 4] : List Nat).length).flatMap
          (fun i => (List.range ([3, 2] : List Nat).length).map
            (fun j => [SliceItem.interval (offsetAt [2, 4] i) (offsetAt [2, 4] (i + 1)),
                       SliceItem.interval (offsetAt [3, 2] j) (offsetAt [3, 2] (j + 1)),
                       SliceItem.full, SliceItem.full])))
      ∧ ((List.range ([2, 4] : List Nat).length).flatMap
          (fun i => (List.range ([3, 2] : List Nat).length).map
            (fun j => [SliceItem.interval (offsetAt [2, 4] i) (offsetAt [2, 4] (i + 1)),
                       SliceItem.interval (offsetAt [3, 2] j) (offsetAt [3, 2] (j + 1)),
                       SliceItem.full, SliceItem.full]))).length
          = ([2, 4] : List Nat).length * ([3, 2] : List Nat).length) :=
  ⟨by decide, chunk_slice_list_two_nav_dims [6, 5, 4, 4] [2, 4] [3, 2] [4] [4] (by decide)⟩

/-- Claim C4 as amended: for any array whose rank is exactly 2 or
greater than 4 (in particular rank 2 and rank 5), both
`_get_dask_chunk_slice_list` and `_calculate_function_on_dask_array`
stop at the rank check with the `NotImplementedError` message,
returning the error alone — no slice windows are built and no output
array value is produced.  The original claim quantified over every
rank other than 3 and 4, but the guard `(len == 2) or (len > 4)`
accepts ranks 0 and 1 (see the counterexample below). -/
theorem rank_check_rejects (shape : List Nat) (chunks : List (List Nat))
    (f : (Nat → Nat → ℝ) → ℝ) (data : List Nat → ℝ)
    (h : shape.length = 2 ∨ 4 < shape.length) :
    getDaskChunkSliceList shape chunks =
      Except.error "dask_array must have either 3 or 4 dimensions"
    ∧ calcOnDaskArray f shape chunks data =
      Except.error "dask_array must have either 3 or 4 dimensions" :=
  ⟨by rw [getDaskChunkSliceList, if_pos h], by rw [calcOnDaskArray, if_pos h]⟩

theorem rank_check_rejects_witness :
    ((([3, 3] : List Nat).length = 2 ∨ 4 < ([3, 3] : List Nat).length)
      ∧ getDaskChunkSliceList [3, 3] [[3], [3]] =
          Except.error "dask_array must have either 3 or 4 dimensions"
      ∧ calcOnDaskArray (fun _ => 0) [3, 3] [[3], [3]] (fun _ => 0) =
          Except.error "dask_array must have either 3 or 4 dimensions")
    ∧ ((([1, 1, 1, 1, 1] : List Nat).length = 2 ∨ 4 < ([1, 1, 1, 1, 1] : List Nat).length)
      ∧ getDaskChunkSliceList [1, 1, 1, 1, 1] [[1], [1], [1], [1], [1]] =
          Except.error "dask_array must have either 3 or 4 dimensions"
      ∧ calcOnDaskArray (fun _ => 0) [1, 1, 1, 1, 1] [[1], [1], [1], [1], [1]] (fun _ => 0) =
          Except.error "dask_array must have either 3 or 4 dimensions") :=
  ⟨⟨by decide,
    rank_check_rejects [3, 3] [[3], [3]] (fun _ => 0) (fun _ => 0) (by decide)⟩,
   ⟨by decide,
    rank_check_rejects [1, 1, 1, 1, 1] [[1], [1], [1], [1], [1]] (fun _ => 0) (fun _ => 0)
      (by decide)⟩⟩

/-- Counterexample to claim C4 as stated: a rank-1 array has rank
neither 3 nor 4, yet both functions accept it — the mapper returns the
empty window list and the driver returns an output array instead of
failing with the `NotImplementedError` condition. -/
theorem rank_check_rejects_counterexample :
    ([5] : List Nat).length ≠ 3 ∧ ([5] : List Nat).length ≠ 4
    ∧ getDaskChunkSliceList [5] [[2, 3]] ≠
        Except.error "dask_array must have either 3 or 4 dimensions"
    ∧ calcOnDaskArray (fun _ => 0) [5] [[2, 3]] (fun _ => 0) ≠
        Except.error "dask_array must have either 3 or 4 dimensions" := by
  have h1 : getDaskChunkSliceList [5] [[2, 3]] = Except.ok [] := rfl
  have h2 : calcOnDaskArray (fun _ => 0) [5] [[2, 3]] (fun _ => 0) =
      Except.ok zeroOutput := rfl
  refine ⟨by decide, by decide, ?_, ?_⟩
  · rw [h1]; exact fun h => Except.noConfusion h
  · rw [h2]; exact fun h => Except.noConfusion h

/-- Claim C9: a rank-1 array passes the rank check (only rank 2 and
ranks above 4 are rejected): the mapper returns the empty window list,
and the driver — for every per-frame function `f` — returns the
zero-initialized output array, never invoking `f`. -/
theorem rank_one_accepted (shape : List Nat) (chunks : List (List Nat))
    (f : (Nat → Nat → ℝ) → ℝ) (data : List Nat → ℝ)
    (hs : shape.length = 1) (hc : chunks.length = 1) :
    getDaskChunkSliceList shape chunks = Except.ok []
    ∧ calcOnDaskArray f shape chunks data = Except.ok zeroOutput := by
  obtain ⟨n, rfl⟩ := List.length_eq_one.mp hs
  obtain ⟨cl, rfl⟩ := List.length_eq_one.mp hc
  exact ⟨rfl, rfl⟩

theorem zeroOutput_apply (c : List Nat) : zeroOutput c = 0 := rfl

theorem foldl_flatMap_eq {α β γ : Type _} (l : List α) (g : α → List β)
    (W : γ → β → γ) (init : γ) :
    (l.flatMap g).foldl W init = l.foldl (fun acc x => (g x).foldl W acc) init := by
  induction l generalizing init with
  | nil => rfl
  | cons x xs ih => rw [List.flatMap_cons, List.foldl_append, List.foldl_cons, ih]

/-- A left fold of single-coordinate writes, each write storing a value
that depends only on its coordinate, yields the array that holds `V c`
at every written coordinate `c` and the initial value elsewhere —
regardless of write order or multiplicity. -/
theorem foldl_writeAt_keys (V : List Nat → ℝ) (keys : List (List Nat))
    (z : Output) (c : List Nat) :
    keys.foldl (fun acc k => writeAt acc k (V k)) z c = if c ∈ keys then V c else z c := by
  induction keys generalizing z with
  | nil => simp
  | cons k ks ih =>
      rw [List.foldl_cons, ih]
      by_cases h1 : c ∈ ks
      · simp [h1]
      · by_cases h2 : c = k
        · subst h2; simp [h1, writeAt]
        · simp [h1, h2, writeAt]

/-- Pointwise description of one window of the driver: coordinates
inside the window receive the per-frame value, all others keep the
incoming array's value. -/
theorem applyWrites2_apply (f : (Nat → Nat → ℝ) → ℝ) (data : List Nat → ℝ)
    (a0 b0 a1 b1 : Nat) (out : Output) (c : List Nat) :
    applyWrites2 f data a0 b0 a1 b1 out c =
      if c ∈ chunkKeys a0 b0 a1 b1 then frameVal f data c else out c := by
  have h1 : applyWrites2 f data a0 b0 a1 b1 out =
      (chunkKeys a0 b0 a1 b1).foldl (fun acc k => writeAt acc k (frameVal f data k)) out := by
    rw [applyWrites2, chunkKeys, foldl_flatMap_eq]
    congr 1
    funext acc0 u
    rw [List.foldl_map]
    rfl
  rw [h1, foldl_writeAt_keys]

/-- Pointwise description of the direct reference loop. -/
theorem directLoop_apply (s0 s1 : Nat) (f : (Nat → Nat → ℝ) → ℝ)
    (data : List Nat → ℝ) (c : List Nat) :
    directLoop s0 s1 f data c =
      if c ∈ directKeys s0 s1 then frameVal f data c else 0 := by
  have h1 : directLoop s0 s1 f data =
      (directKeys s0 s1).foldl (fun acc k => writeAt acc k (frameVal f data k)) zeroOutput := by
    rw [directLoop, directKeys, foldl_flatMap_eq]
    congr 1
    funext acc0 i
    rw [List.foldl_map]
    rfl
  rw [h1, foldl_writeAt_keys, zeroOutput_apply]

/-- Claim C1: on a (4,4,8,8)-shaped array chunked (2,2,8,8), the
chunked driver with a scalar per-frame function returns exactly the
array obtained by looping directly over all 16 navigation coordinates,
materializing each frame and storing the function's value there. -/
theorem calc_refines_direct_4488 (f : (Nat → Nat → ℝ) → ℝ) (data : List Nat → ℝ) :
    calcOnDaskArray f [4, 4, 8, 8] [[2, 2], [2, 2], [8], [8]] data =
      Except.ok (directLoop 4 4 f data) := by
  have hcalc : calcOnDaskArray f [4, 4, 8, 8] [[2, 2], [2, 2], [8], [8]] data =
      Except.ok (applyWrites2 f data 2 4 2 4 (applyWrites2 f data 2 4 0 2
        (applyWrites2 f data 0 2 2 4 (applyWrites2 f data 0 2 0 2 zeroOutput)))) := rfl
  rw [hcalc]
  refine congrArg Except.ok ?_
  funext c
  have hperm : List.Perm
      (chunkKeys 2 4 2 4 ++ (chunkKeys 2 4 0 2 ++ (chunkKeys 0 2 2 4 ++ chunkKeys 0 2 0 2)))
      (directKeys 4 4) := by decide
  have hmem : (c ∈ chunkKeys 2 4 2 4 ∨ c ∈ chunkKeys 2 4 0 2 ∨ c ∈ chunkKeys 0 2 2 4
      ∨ c ∈ chunkKeys 0 2 0 2) ↔ c ∈ directKeys 4 4 := by
    rw [← hperm.mem_iff]
    simp [List.mem_append]
  simp only [applyWrites2_apply, directLoop_apply, zeroOutput_apply]
  simp only [← hmem]
  split_ifs <;> first | rfl | tauto

theorem rank_one_accepted_witness :
    (([7] : List Nat).length = 1 ∧ ([[4, 3]] : List (List Nat)).length = 1)
    ∧ (getDaskChunkSliceList [7] [[4, 3]] = Except.ok []
      ∧ calcOnDaskArray (fun _ => 1) [7] [[4, 3]] (fun _ => 2) = Except.ok zeroOutput) :=
  ⟨⟨by decide, by decide⟩,
   rank_one_accepted [7] [[4, 3]] (fun _ => 1) (fun _ => 2) (by decide) (by decide)⟩

end LazyTools

namespace PdfUtils

theorem npMax_eq_none_iff (l : List ℝ) : npMax l = none ↔ l = [] := by
  cases l <;> simp [npMax]

theorem npMax_cons (x : ℝ) (xs : List ℝ) : npMax (x :: xs) = some (xs.foldl max x) := rfl

theorem le_foldl_max (xs : List ℝ) : ∀ x a : ℝ, a ∈ x :: xs → a ≤ xs.foldl max x := by
  induction xs with
  | nil => intro x a ha; simp at ha; simp [ha]
  | cons y ys ih =>
      intro x a ha
      rw [List.foldl_cons]
      have hbase : max x y ≤ List.foldl max (max x y) ys :=
        ih (max x y) (max x y) (List.mem_cons_self _ _)
      rcases List.mem_cons.mp ha with h | h
      · rw [h]; exact le_trans (le_max_left x y) hbase
      · rcases List.mem_cons.mp h with h2 | h2
        · rw [h2]; exact le_trans (le_max_right x y) hbase
        · exact ih (max x y) a (List.mem_cons_of_mem _ h2)

theorem foldl_max_mem (xs : List ℝ) : ∀ x : ℝ, xs.foldl max x ∈ x :: xs := by
  induction xs with
  | nil => intro x; simp
  | cons y ys ih =>
      intro x
      rw [List.foldl_cons]
      rcases List.mem_cons.mp (ih (max x y)) with h | h
      · rcases max_choice x y with hc | hc <;> rw [h, hc] <;> simp
      · exact List.mem_cons_of_mem _ (List.mem_cons_of_mem _ h)

/-- Claim C10: `normalise_pdf_signal_to_max` fails (NumPy's `np.max`
raises on the empty sub-range) exactly when `index_min` is at least the
length of the input; it returns a result precisely when
`z[index_min:]` is non-empty. -/
theorem normalise_fails_iff_empty_tail (z : List ℝ) (index_min : Nat) :
    normalise_pdf_signal_to_max z index_min = none ↔ z.length ≤ index_min := by
  rw [normalise_pdf_signal_to_max]
  rcases hd : npMax (z.drop index_min) with _ | m
  · rw [← List.drop_eq_nil_iff, ← npMax_eq_none_iff, hd]
    simp
  · have : ¬(z.drop index_min = []) := by
      intro hnil
      rw [(npMax_eq_none_iff _).mpr hnil] at hd
      exact Option.noConfusion hd
    rw [List.drop_eq_nil_iff] at this
    simp [this]

/-- Claim C8: whenever the sub-range `z[index_min:]` is non-empty,
`normalise_pdf_signal_to_max` divides every element of `z` by the
maximum `m` of that sub-range (`m` is an element of the sub-range and
an upper bound of it); in particular on `[1,2,10,4,3]` with
`index_min = 2` it divides by `10`, yielding `[0.1,0.2,1.0,0.4,0.3]`. -/
theorem normalise_divides_by_tail_max (z : List ℝ) (index_min : Nat)
    (h : z.drop index_min ≠ []) :
    (∃ m, npMax (z.drop index_min) = some m
      ∧ m ∈ z.drop index_min
      ∧ (∀ a ∈ z.drop index_min, a ≤ m)
      ∧ normalise_pdf_signal_to_max z index_min = some (z.map (fun a => a / m)))
    ∧ normalise_pdf_signal_to_max [1, 2, 10, 4, 3] 2 =
        some [0.1, 0.2, 1.0, 0.4, 0.3] := by
  constructor
  · rcases hd : z.drop index_min with _ | ⟨x, xs⟩
    · exact absurd hd h
    · refine ⟨xs.foldl max x, npMax_cons x xs, foldl_max_mem xs x, le_foldl_max xs x, ?_⟩
      rw [normalise_pdf_signal_to_max, hd, npMax_cons]
  · have hm : npMax (([1, 2, 10, 4, 3] : List ℝ).drop 2) = some 10 := by
      show some (List.foldl max (10 : ℝ) [4, 3]) = some 10
      norm_num
    rw [normalise_pdf_signal_to_max, hm]
    norm_num

theorem normalise_divides_by_tail_max_witness :
    ((([1, 2, 10, 4, 3] : List ℝ).drop 2 ≠ [])
    ∧ ((∃ m, npMax (([1, 2, 10, 4, 3] : List ℝ).drop 2) = some m
        ∧ m ∈ ([1, 2, 10, 4, 3] : List ℝ).drop 2
        ∧ (∀ a ∈ ([1, 2, 10, 4, 3] : List ℝ).drop 2, a ≤ m)
        ∧ normalise_pdf_signal_to_max [1, 2, 10, 4, 3] 2 =
            some (([1, 2, 10, 4, 3] : List ℝ).map (fun a => a / m)))
      ∧ normalise_pdf_signal_to_max [1, 2, 10, 4, 3] 2 =
          some [0.1, 0.2, 1.0, 0.4, 0.3])) :=
  ⟨by simp, normalise_divides_by_tail_max [1, 2, 10, 4, 3] 2 (by simp)⟩

end PdfUtils

namespace PdfUtils

theorem dampAxis_length (s_scale : ℝ) (s_size : Nat) :
    (dampAxis s_scale s_size).length = s_size := by
  simp only [dampAxis, List.length_map, List.length_range]

theorem dampAxis_getElem (s_scale : ℝ) (s_size j : Nat)
    (h : j < (dampAxis s_scale s_size).length) :
    (dampAxis s_scale s_size).get ⟨j, h⟩ = s_scale * (j : ℝ) := by
  simp only [dampAxis, List.get_eq_getElem, List.getElem_map, List.getElem_range]

/-- Claim C5 is a code bug: the claim asserts the low-q error-function
damping returns `z` multiplied elementwise by `(erf(scale*s - offset) + 1)/2`
without raising, matching the docstring of `damp_ri_low_q_region_erfc` —
but the module never imports `special` (only numpy), so every call,
whatever the input, raises `NameError` before any damping is computed
and nothing is returned. -/
theorem damp_low_q_erfc_raises (z : List ℝ) (scale offset s_scale : ℝ) (s_size : Nat) :
    damp_ri_low_q_region_erfc z scale offset s_scale s_size =
      Except.error "NameError: name special is not defined" := rfl

/-- Claim C6: Lorch damping is total (never raises); at the `s = 0`
element of the generated axis its damping factor is exactly `0` (the
`0/0` NaN replaced by `nan_to_num`), and at every other element the
result is the input times the analytic `sin(delta*s)/(delta*s)` with
`delta = pi/s_max`. -/
theorem damp_lorch_spec (z : List ℝ) (s_max s_scale : ℝ) (s_size : Nat)
    (hmax : 0 < s_max) (hscale : 0 < s_scale) (hz : z.length = s_size) (hpos : 0 < s_size) :
    (lorchDampingTerm s_max s_scale s_size).getD 0 0 = 0
    ∧ ∀ j, 0 < j → j < s_size →
        (damp_ri_lorch z s_max s_scale s_size).getD j 0 =
          z.getD j 0 * (Real.sin (Real.pi / s_max * (s_scale * (j : ℝ)))
            / (Real.pi / s_max * (s_scale * (j : ℝ)))) := by
  have hltlen : (lorchDampingTerm s_max s_scale s_size).length = s_size := by
    simp only [lorchDampingTerm, List.length_map, dampAxis_length]
  constructor
  · have h0 : 0 < (lorchDampingTerm s_max s_scale s_size).length := by omega
    rw [List.getD_eq_getElem _ _ h0]
    simp only [lorchDampingTerm, List.getElem_map, dampAxis, List.getElem_range,
      Nat.cast_zero, mul_zero, nanToNumDiv, if_pos]
  · intro j hj0 hj
    have hjz : j < z.length := by omega
    have hjd : j < (damp_ri_lorch z s_max s_scale s_size).length := by
      simp only [damp_ri_lorch, List.length_zipWith, hltlen]
      omega
    rw [List.getD_eq_getElem _ _ hjd, List.getD_eq_getElem _ _ hjz]
    have hne : Real.pi / s_max * (s_scale * (j : ℝ)) ≠ 0 := by
      have hpi : 0 < Real.pi / s_max := div_pos Real.pi_pos hmax
      have hjr : (0 : ℝ) < (j : ℝ) := by exact_mod_cast hj0
      exact ne_of_gt (mul_pos hpi (mul_pos hscale hjr))
    simp only [damp_ri_lorch, List.getElem_zipWith, lorchDampingTerm, List.getElem_map,
      dampAxis, List.getElem_range, nanToNumDiv, if_neg hne]

theorem damp_lorch_spec_witness :
    ((0 : ℝ) < 1 ∧ (0 : ℝ) < 1 ∧ ([5, 7] : List ℝ).length = 2 ∧ 0 < 2)
    ∧ ((lorchDampingTerm 1 1 2).getD 0 0 = 0
      ∧ ∀ j, 0 < j → j < 2 →
          (damp_ri_lorch [5, 7] 1 1 2).getD j 0 =
            ([5, 7] : List ℝ).getD j 0 * (Real.sin (Real.pi / 1 * (1 * (j : ℝ)))
              / (Real.pi / 1 * (1 * (j : ℝ))))) :=
  ⟨⟨by norm_num, by norm_num, by simp, by norm_num⟩,
   damp_lorch_spec [5, 7] 1 1 2 (by norm_num) (by norm_num) (by simp) (by norm_num)⟩

end PdfUtils

namespace PdfUtils

theorem zipWith_zipWith_same {α β γ δ : Type _} (f : γ → β → δ) (g : α → β → γ) :
    ∀ (l1 : List α) (l2 : List β),
      List.zipWith f (List.zipWith g l1 l2) l2 = List.zipWith (fun a b => f (g a b) b) l1 l2
  | [], l2 => by simp
  | a :: l1, [] => by simp
  | a :: l1, b :: l2 => by
      simp only [List.zipWith_cons_cons]
      rw [zipWith_zipWith_same f g l1 l2]

theorem zipWith_left_of_length_le {α β : Type _} :
    ∀ (l1 : List α) (l2 : List β), l1.length ≤ l2.length →
      List.zipWith (fun a _ => a) l1 l2 = l1
  | [], _, _ => rfl
  | a :: l1, [], h => by simp at h
  | a :: l1, b :: l2, h => by
      simp only [List.zipWith_cons_cons]
      rw [zipWith_left_of_length_le l1 l2 (by simpa using h)]

theorem zipWith_add_replicate_zero (S : ℝ → ℝ) :
    ∀ x : List ℝ,
      List.zipWith (fun a xv => a + S xv) (List.replicate x.length (0 : ℝ)) x = x.map S
  | [] => rfl
  | v :: xs => by
      simp only [List.length_cons, List.replicate_succ, List.zipWith_cons_cons, List.map_cons,
        zero_add]
      rw [zipWith_add_replicate_zero S xs]

/-- The element-accumulation loop of the synthesizers computes, at each
axis point, the fraction-weighted sums of squared and plain base
curves over the `(parameters, fraction)` pairs. -/
theorem elementAccum_eq (F : List (ℝ × ℝ) → ℝ → ℝ) (params : List (List (ℝ × ℝ)))
    (fracs : List ℝ) (x : List ℝ) (s_size : Nat) (hx : x.length = s_size) :
    elementAccum F params fracs x s_size =
      (x.map (fun xv => ((params.zip fracs).map (fun pf => F pf.1 xv ^ 2 * pf.2)).sum),
       x.map (fun xv => ((params.zip fracs).map (fun pf => F pf.1 xv * pf.2)).sum)) := by
  suffices h : ∀ (pfs : List (List (ℝ × ℝ) × ℝ)) (acc1 acc2 : List ℝ),
      acc1.length = x.length → acc2.length = x.length →
      pfs.foldl (fun acc pf =>
          (List.zipWith (fun a xv => a + F pf.1 xv ^ 2 * pf.2) acc.1 x,
           List.zipWith (fun a xv => a + F pf.1 xv * pf.2) acc.2 x)) (acc1, acc2)
        = (List.zipWith (fun a xv => a + (pfs.map (fun pf => F pf.1 xv ^ 2 * pf.2)).sum) acc1 x,
           List.zipWith (fun a xv => a + (pfs.map (fun pf => F pf.1 xv * pf.2)).sum) acc2 x) by
    rw [elementAccum, h (params.zip fracs) (List.replicate s_size 0) (List.replicate s_size 0)
      (by simp [hx]) (by simp [hx]), ← hx]
    rw [zipWith_add_replicate_zero, zipWith_add_replicate_zero]
  intro pfs
  induction pfs with
  | nil =>
      intro acc1 acc2 h1 h2
      simp only [List.foldl_nil, List.map_nil, List.sum_nil, add_zero]
      rw [zipWith_left_of_length_le acc1 x (le_of_eq h1),
        zipWith_left_of_length_le acc2 x (le_of_eq h2)]
  | cons pf rest ih =>
      intro acc1 acc2 h1 h2
      simp only [List.foldl_cons]
      rw [ih (List.zipWith (fun a xv => a + F pf.1 xv ^ 2 * pf.2) acc1 x)
          (List.zipWith (fun a xv => a + F pf.1 xv * pf.2) acc2 x)
          (by simp [List.length_zipWith, h1]) (by simp [List.length_zipWith, h2]),
        zipWith_zipWith_same, zipWith_zipWith_same]
      have e1 : (fun (a b : ℝ) =>
            a + F pf.1 b ^ 2 * pf.2 + ((rest.map (fun pf2 => F pf2.1 b ^ 2 * pf2.2)).sum)) =
          fun a b => a + (((pf :: rest).map (fun pf2 => F pf2.1 b ^ 2 * pf2.2)).sum) := by
        funext a b
        simp only [List.map_cons, List.sum_cons]
        ring
      have e2 : (fun (a b : ℝ) =>
            a + F pf.1 b * pf.2 + ((rest.map (fun pf2 => F pf2.1 b * pf2.2)).sum)) =
          fun a b => a + (((pf :: rest).map (fun pf2 => F pf2.1 b * pf2.2)).sum) := by
        funext a b
        simp only [List.map_cons, List.sum_cons]
        ring
      rw [e1, e2]

end PdfUtils

namespace PdfUtils

/-- Claim C7 is a code bug: the claim asserts the synthesizers return
`N * (sum of frac * f(s)^2) + C` and `N * (sum of frac * f(s))`, and the
base curve itself for a single element of fraction 1 with `N = 1`,
`C = 0` — matching their docstrings — but the module never binds the
parameter tables (`ATOMIC_SCATTERING_PARAMS_LOBATO` and
`ATOMIC_SCATTERING_PARAMS`; only numpy is imported), so for every
non-empty element list — including the single-element instantiation of
the claim — both variants raise `NameError` in their first loop and
never return. -/
theorem scattering_to_signal_raises (e : String) (es : List String) (fracs : List ℝ)
    (N C : Nat → Nat → ℝ) (s_size : Nat) (s_scale : ℝ) :
    scattering_to_signal_lobato (e :: es) fracs N C s_size s_scale =
      Except.error "NameError: name ATOMIC_SCATTERING_PARAMS_LOBATO is not defined"
    ∧ scattering_to_signal_xtables (e :: es) fracs N C s_size s_scale =
      Except.error "NameError: name ATOMIC_SCATTERING_PARAMS is not defined" :=
  ⟨rfl, rfl⟩

end PdfUtils
